import Mathlib

/-!
Verification of the chitchatposts conversation-monitoring bot core.

The definitions below are a shallow embedding of the JavaScript sources:
  - src/services/conversationBuffer.js  (rolling message buffer)
  - src/services/suggestionStore.js     (bounded suggestion history, checkpoints)
  - src/services/deduplication.js       (Jaccard-over-fingerprint duplicate check)
  - src/services/slackHistory.js        (paginated history fetch)
  - src/services/scheduler.js           (scheduled orchestration, runAnalysis)
  - src/handlers/slackHandlers.js       (on-demand orchestration, performAnalysis)

Modelling conventions:
  - JavaScript Map objects become association lists in insertion order
    (set on an existing key updates in place, set on a fresh key appends,
    iteration and keys().next() follow insertion order).
  - Slack timestamp tokens are opaque strings compared via parseFloat in the
    source; they are embedded as integers (only their numeric ordering is ever
    consumed), and wall-clock milliseconds (Date.now()) likewise. Similarity
    scores are exact rationals, built with mkRat.
  - Optional / possibly-absent JS string fields become Option String;
    JS truthiness on them (null, undefined and the empty string are falsy)
    is the predicate strTruthy.
  - Async calls that may throw (the Slack fetch, the LLM call) are embedded
    as Except-valued oracles passed in as parameters; catching corresponds
    to matching on the error case.
-/

namespace ChitChat

/-- JS truthiness of a possibly-absent string: null / undefined / empty are falsy. -/
def strTruthy : Option String → Bool
  | none => false
  | some s => s ≠ ""

/-- The JS idiom `a || b || ""` on two possibly-absent strings. -/
def firstTruthy (a b : Option String) : String :=
  if strTruthy a then a.getD "" else if strTruthy b then b.getD "" else ""

/-! ## Character classes used by the source regexes -/

/-- Character class of the JS regex `\w` (ASCII letters, digits, underscore). -/
def isWordCharJS (c : Char) : Bool :=
  c.isAlphanum || c == '_'

/-- Character class of the JS regex `\s` (ECMAScript WhiteSpace and
LineTerminator code points). -/
def isSpaceJS (c : Char) : Bool :=
  c == ' ' || c == '\t' || c == '\n' || c == '\r' ||
  c == '\x0b' || c == '\x0c' || c == ' ' ||
  c.toNat == 0x1680 || (0x2000 ≤ c.toNat && c.toNat ≤ 0x200a) ||
  c.toNat == 0x2028 || c.toNat == 0x2029 || c.toNat == 0x202f ||
  c.toNat == 0x205f || c.toNat == 0x3000 || c.toNat == 0xfeff

/-- The JS `String.prototype.trim()` at the character-list level (drops leading
and trailing JS whitespace). -/
def trimWs (l : List Char) : List Char :=
  ((l.dropWhile isSpaceJS).reverse.dropWhile isSpaceJS).reverse

/-! ## Slack message events and buffer messages -/

/-- Raw Slack message event shape `{user, text, ts, bot_id, subtype}` as consumed
by `shouldStoreMessage` and the history fetcher. The `ts` token is embedded as
an integer (the source only ever compares it via parseFloat). -/
structure SlackEvent where
  user : Option String
  text : Option String
  ts : Int
  bot_id : Option String
  subtype : Option String
deriving Repr, DecidableEq

/-- conversationBuffer.js: `MIN_MESSAGE_LENGTH = 5`. -/
def MIN_MESSAGE_LENGTH : Nat := 5

/-- conversationBuffer.js `shouldStoreMessage(event)`: reject bot messages,
edits/deletions, and messages whose trimmed text is shorter than
MIN_MESSAGE_LENGTH. -/
def shouldStoreMessage (event : SlackEvent) : Bool :=
  if strTruthy event.bot_id || event.subtype == some "bot_message" then
    false
  else if event.subtype == some "message_changed"
      || event.subtype == some "message_deleted" then
    false
  else if !strTruthy event.text
      || ((trimWs (event.text.getD "").data).length < MIN_MESSAGE_LENGTH) then
    false
  else
    true

/-! ## suggestionStore.js : fingerprint -/

/-- One collapse step of the regex replace `/\s+/g -> " "`: a maximal run of
whitespace characters becomes a single space. -/
def collapseWs : List Char → List Char
  | [] => []
  | [c] => if isSpaceJS c then [' '] else [c]
  | a :: b :: rest =>
    if isSpaceJS a && isSpaceJS b then collapseWs (b :: rest)
    else (if isSpaceJS a then ' ' else a) :: collapseWs (b :: rest)

/-- suggestionStore.js `generateFingerprint(text)`: empty for falsy input, else
lowercase, strip every character matching `[^\w\s]`, collapse whitespace runs to
single spaces, and trim. -/
def generateFingerprint (text : String) : String :=
  if text = "" then ""
  else
    String.mk (trimWs (collapseWs
      ((text.data.map Char.toLower).filter
        (fun c => isWordCharJS c || isSpaceJS c))))

/-! ## JS Map embedding: association lists in insertion order -/

/-- JS `map.get(k)` (None for an absent key; keys of a JS Map are unique, so
the first match is the match). -/
def mapGet : List (String × α) → String → Option α
  | [], _ => none
  | p :: rest, k => if p.1 == k then some p.2 else mapGet rest k

/-- JS `map.set(k, v)`: update in place when the key exists (keeping its
insertion position), otherwise append at the end. -/
def mapSet : List (String × α) → String → α → List (String × α)
  | [], k, v => [(k, v)]
  | p :: rest, k, v =>
    if p.1 == k then (k, v) :: rest else p :: mapSet rest k v

/-- JS `map.delete(k)`. -/
def mapDelete (m : List (String × α)) (k : String) : List (String × α) :=
  m.filter (fun p => !(p.1 == k))

/-! ## suggestionStore.js : bounded suggestion history and checkpoints -/

/-- The LLM analysis result / suggestion shape
`{isPostWorthy, reasoning, linkedInDraft, xDraft, error?}`.
An absent `error` field is embedded as `error = false`. -/
structure Suggestion where
  isPostWorthy : Bool
  reasoning : String
  linkedInDraft : Option String
  xDraft : Option String
  error : Bool
deriving Repr, DecidableEq

/-- Entry shape `{suggestion, timestamp}` as stored in `suggestionHistory`
(`timestamp` is Date.now() in milliseconds). -/
structure HistoryEntry where
  suggestion : Suggestion
  timestamp : Int
deriving Repr, DecidableEq

/-- The `suggestionHistory` Map, keyed by fingerprint, in insertion order. -/
abbrev SuggestionHistory := List (String × HistoryEntry)

/-- suggestionStore.js: `MAX_HISTORY_SIZE = 100`. -/
def MAX_HISTORY_SIZE : Nat := 100

/-- The primary text of a suggestion:
`suggestion.linkedInDraft || suggestion.xDraft || ""`. -/
def primaryText (s : Suggestion) : String :=
  firstTruthy s.linkedInDraft s.xDraft

/-- suggestionStore.js `storeSuggestion(suggestion)`: fingerprint the primary
text, do nothing when it is empty; when the history holds MAX_HISTORY_SIZE
entries, delete the first-inserted key before setting the new entry. -/
def storeSuggestion (s : Suggestion) (nowMs : Int) (hist : SuggestionHistory) :
    SuggestionHistory :=
  let fp := generateFingerprint (primaryText s)
  if fp = "" then hist
  else
    let hist1 :=
      if MAX_HISTORY_SIZE ≤ hist.length then
        match hist with
        | [] => hist
        | e :: _ => mapDelete hist e.1
      else hist
    mapSet hist1 fp ⟨s, nowMs⟩

/-- suggestionStore.js `getStoredSuggestions()`: the stored suggestions in
insertion order. -/
def getStoredSuggestions (hist : SuggestionHistory) : List Suggestion :=
  hist.map (fun p => p.2.suggestion)

/-! ## deduplication.js -/

/-- deduplication.js: `SIMILARITY_THRESHOLD = 0.8` (the rational 8/10). -/
def SIMILARITY_THRESHOLD : Rat := mkRat 8 10

/-- Worker for the JS `text.split(/\s+/)`: `acc` is the (reversed) token being
built and the flag records whether the previous character was whitespace, so a
whitespace run produces a single boundary. Splitting keeps a leading and a
trailing empty token when the string starts or ends with whitespace, and the
empty string splits to `[""]`, exactly as in ECMAScript. -/
def splitWsGo : List Char → List Char → Bool → List (List Char)
  | [], acc, _ => [acc.reverse]
  | c :: rest, acc, prevSpace =>
    if isSpaceJS c then
      if prevSpace then splitWsGo rest acc true
      else acc.reverse :: splitWsGo rest [] true
    else splitWsGo rest (c :: acc) false

/-- JS `s.split(/\s+/)`. -/
def splitWsJS (s : String) : List String :=
  (splitWsGo s.data [] false).map String.mk

/-- deduplication.js `calculateJaccardSimilarity(text1, text2)`: token sets are
`new Set(text.toLowerCase().split(/\s+/))`; answer 1 when both are empty, 0 when
exactly one is, else intersection size over union size. -/
def calculateJaccardSimilarity (text1 text2 : String) : Rat :=
  let words1 := (splitWsJS (text1.map Char.toLower)).dedup
  let words2 := (splitWsJS (text2.map Char.toLower)).dedup
  if words1.length = 0 ∧ words2.length = 0 then 1
  else if words1.length = 0 ∨ words2.length = 0 then 0
  else
    let inter := words1.filter (fun x => words2.contains x)
    let union := (words1 ++ words2).dedup
    mkRat inter.length union.length

/-- deduplication.js `calculateSimilarity(text1, text2)`: 1 exactly when the two
fingerprints coincide, else the Jaccard similarity of the fingerprints. -/
def calculateSimilarity (text1 text2 : String) : Rat :=
  let fp1 := generateFingerprint text1
  let fp2 := generateFingerprint text2
  if fp1 = fp2 then 1
  else calculateJaccardSimilarity fp1 fp2

/-- Result shape of `checkDuplicate`. -/
structure DupResult where
  isDuplicate : Bool
  similarity : Rat
  matchedWith : Option Suggestion
deriving Repr, DecidableEq

/-- The scan loop of deduplication.js `checkDuplicate`: walk the stored
suggestions tracking the maximum similarity and its first maximizer, skip
entries without usable text, and break as soon as a similarity reaches 0.99. -/
def checkDupLoop (newContent : String) :
    List Suggestion → Rat → Option Suggestion → Rat × Option Suggestion
  | [], maxSim, best => (maxSim, best)
  | st :: rest, maxSim, best =>
    let storedContent := firstTruthy st.linkedInDraft st.xDraft
    if storedContent = "" then checkDupLoop newContent rest maxSim best
    else
      let sim := calculateSimilarity newContent storedContent
      let maxSim1 := if maxSim < sim then sim else maxSim
      let best1 := if maxSim < sim then some st else best
      if mkRat 99 100 ≤ sim then (maxSim1, best1)
      else checkDupLoop newContent rest maxSim1 best1

/-- deduplication.js `checkDuplicate(suggestion)` against the stored
suggestions: early `{false, 0, null}` answers for an empty store or a candidate
without usable text, else the scan loop with the 0.8 threshold. -/
def checkDuplicate (s : Suggestion) (stored : List Suggestion) : DupResult :=
  if stored.length = 0 then ⟨false, 0, none⟩
  else
    let newContent := firstTruthy s.linkedInDraft s.xDraft
    if newContent = "" then ⟨false, 0, none⟩
    else
      let r := checkDupLoop newContent stored 0 none
      ⟨SIMILARITY_THRESHOLD ≤ r.1, r.1, r.2⟩

/-! ## conversationBuffer.js : rolling window buffer -/

/-- Buffer message shape `{user, text, timestamp, addedAt}`; `addedAt` is
wall-clock milliseconds. -/
structure Msg where
  user : Option String
  text : Option String
  timestamp : Int
  addedAt : Int
deriving Repr, DecidableEq

/-- conversationBuffer.js: `BUFFER_WINDOW_MS` with the default of 4 hours. -/
def BUFFER_WINDOW_MS : Int := 4 * 60 * 60 * 1000

/-- The `channelBuffers` Map. -/
abbrev Buffers := List (String × List Msg)

/-- conversationBuffer.js `cleanupOldMessages(channelId)` at wall-clock time
`now`: keep the messages with `addedAt > now - BUFFER_WINDOW_MS`; delete the
channel key when none survive. -/
def cleanupOldMessages (now : Int) (channelId : String) (bufs : Buffers) :
    Buffers :=
  match mapGet bufs channelId with
  | none => bufs
  | some buffer =>
    let filtered := buffer.filter (fun m => now - BUFFER_WINDOW_MS < m.addedAt)
    if filtered.length = 0 then mapDelete bufs channelId
    else mapSet bufs channelId filtered

/-- conversationBuffer.js `addMessage(channelId, user, text, timestamp)` at
wall-clock time `now`: sweep first, then push `{user, text, timestamp,
addedAt: now}` onto the channel entry (created if absent). -/
def addMessage (now : Int) (channelId : String) (user text : Option String)
    (timestamp : Int) (bufs : Buffers) : Buffers :=
  let b1 := cleanupOldMessages now channelId bufs
  let b2 := if (mapGet b1 channelId).isNone then mapSet b1 channelId [] else b1
  mapSet b2 channelId ((mapGet b2 channelId).getD [] ++
    [⟨user, text, timestamp, now⟩])

/-- conversationBuffer.js `getMessages(channelId)` at wall-clock time `now`:
sweep first, then return the channel entry (or `[]`), together with the swept
buffer map. -/
def getMessages (now : Int) (channelId : String) (bufs : Buffers) :
    Buffers × List Msg :=
  let b1 := cleanupOldMessages now channelId bufs
  (b1, (mapGet b1 channelId).getD [])

/-! ## slackHistory.js : paginated history fetch -/

/-- One page of the Slack `conversations.history` response, as consumed by the
fetch loop (an error from the call is modelled at the loop level). -/
structure HistPage where
  messages : List SlackEvent
  has_more : Bool
  next_cursor : Option String
deriving Repr, DecidableEq

/-- Conversion applied to an admitted history message:
`{user: msg.user, text: msg.text, timestamp: msg.ts, addedAt: parseFloat(msg.ts) * 1000}`. -/
def convertHistMsg (m : SlackEvent) : Msg :=
  ⟨m.user, m.text, m.ts, m.ts * 1000⟩

/-- The per-page body of the fetch loop: keep exactly the messages admitted by
`shouldStoreMessage` (the same predicate as the real-time buffer). -/
def keepPage (p : HistPage) : List Msg :=
  (p.messages.filter shouldStoreMessage).map convertHistMsg

/-- The condition `response.has_more && response.response_metadata?.next_cursor`
under which the while loop fetches another page. -/
def pageHasMore (p : HistPage) : Bool :=
  p.has_more && strTruthy p.next_cursor

/-- The while loop of slackHistory.js `fetchSlackHistory`: consume the upstream
page sequence, filtering each page, until a page reports no continuation (or
the upstream has no further pages to give). -/
def fetchSlackHistoryAux : List HistPage → List Msg
  | [] => []
  | p :: rest =>
    keepPage p ++ (if pageHasMore p then fetchSlackHistoryAux rest else [])

/-- The sort comparator `(a, b) => parseFloat(a.timestamp) - parseFloat(b.timestamp)`. -/
def tsLe (a b : Msg) : Bool :=
  a.timestamp ≤ b.timestamp

/-- slackHistory.js `fetchSlackHistory(client, channelId, oldest, latest?)`,
abstracted over the page sequence the upstream yields: accumulate the admitted
messages of every fetched page, then sort ascending by numeric timestamp (a
stable sort, as in the JS engine). -/
def fetchSlackHistory (pages : List HistPage) : List Msg :=
  (fetchSlackHistoryAux pages).mergeSort tsLe

/-! ## Orchestration state -/

/-- The process-wide singleton state: the suggestion history, the two
independent checkpoint maps of suggestionStore.js, and the channel buffers. -/
structure AppState where
  history : SuggestionHistory
  syncTs : List (String × Int)
  analyzedTs : List (String × Int)
  buffers : Buffers
deriving Repr, DecidableEq

/-- suggestionStore.js `getLastSyncTimestamp(channelId)`. -/
def getLastSyncTimestamp (channelId : String) (st : AppState) : Option Int :=
  mapGet st.syncTs channelId

/-- suggestionStore.js `updateSyncTimestamp(channelId, timestamp)`. -/
def updateSyncTimestamp (channelId : String) (ts : Int) (st : AppState) :
    AppState :=
  { st with syncTs := mapSet st.syncTs channelId ts }

/-- suggestionStore.js `getLastAnalyzedTs(channelId)`. -/
def getLastAnalyzedTs (channelId : String) (st : AppState) : Option Int :=
  mapGet st.analyzedTs channelId

/-- suggestionStore.js `setLastAnalyzedTs(channelId, ts)`. -/
def setLastAnalyzedTs (channelId : String) (ts : Int) (st : AppState) :
    AppState :=
  { st with analyzedTs := mapSet st.analyzedTs channelId ts }

/-- The constant `MIN_MESSAGES_FOR_ANALYSIS` with its default of 5
(scheduler.js and slackHandlers.js). -/
def MIN_MESSAGES_FOR_ANALYSIS : Nat := 5

/-- The external LLM collaborator `analyzeConversation`: a well-formed
Suggestion on normal return (content-level failures arrive as `error = true`),
or an exception (the `Except.error` case) on a hard call failure. -/
abbrev AnalyzeOracle := List Msg → Except Unit Suggestion

/-! ## scheduler.js : the scheduled path (`runAnalysis` per-channel body) -/

/-- Outcome of one channel iteration of scheduler.js `runAnalysis`. -/
inductive SchedOutcome where
  | fetchFailed
  | notEnough (found needed : Nat)
  | nothingNew
  | analysisFailed
  | notPostWorthy
  | duplicateSkip
  | posted
deriving Repr, DecidableEq

/-- Observable result of one channel iteration of `runAnalysis`: the outcome,
the state afterwards, whether the LLM collaborator was invoked, and the
suggestion posted to the suggestions channel, if any. -/
structure SchedResult where
  outcome : SchedOutcome
  state : AppState
  analyzeInvoked : Bool
  postedSuggestion : Option Suggestion
deriving Repr, DecidableEq

/-- scheduler.js `runAnalysis`, continuation after the threshold and freshness
checks passed: call the LLM (which may throw, caught by the per-channel catch),
checkpoint immediately, then the content gate, the dedupe gate, and the commit. -/
def runAnalysisAfterChecks (analyze : AnalyzeOracle) (channelId : String)
    (messages : List Msg) (latest : Msg) (nowMs : Int) (st : AppState) :
    SchedResult :=
  match analyze messages with
  | .error _ => ⟨.analysisFailed, st, true, none⟩
  | .ok analysis =>
    let st1 := setLastAnalyzedTs channelId latest.timestamp st
    if !analysis.isPostWorthy || analysis.error then
      ⟨.notPostWorthy, st1, true, none⟩
    else
      let dup := checkDuplicate analysis (getStoredSuggestions st1.history)
      if dup.isDuplicate then ⟨.duplicateSkip, st1, true, none⟩
      else
        ⟨.posted, { st1 with history := storeSuggestion analysis nowMs st1.history },
          true, some analysis⟩

/-- One channel iteration of scheduler.js `runAnalysis`, abstracted over the
fetch result (`Except.error` for a thrown fetch) and the LLM oracle:
threshold check, freshness check against the last-analyzed checkpoint, then
`runAnalysisAfterChecks`. -/
def runAnalysisChannel (analyze : AnalyzeOracle) (channelId : String)
    (fetched : Except Unit (List Msg)) (nowMs : Int) (st : AppState) :
    SchedResult :=
  match fetched with
  | .error _ => ⟨.fetchFailed, st, false, none⟩
  | .ok messages =>
    if messages.length < MIN_MESSAGES_FOR_ANALYSIS then
      ⟨.notEnough messages.length MIN_MESSAGES_FOR_ANALYSIS, st, false, none⟩
    else
      match messages.getLast? with
      | none => ⟨.notEnough 0 MIN_MESSAGES_FOR_ANALYSIS, st, false, none⟩
      | some latest =>
        match getLastAnalyzedTs channelId st with
        | some lastTs =>
          if latest.timestamp ≤ lastTs then ⟨.nothingNew, st, false, none⟩
          else runAnalysisAfterChecks analyze channelId messages latest nowMs st
        | none => runAnalysisAfterChecks analyze channelId messages latest nowMs st

/-! ## slackHandlers.js : the on-demand path -/

/-- Reply sent by `performAnalysis` / `handleSlashCommand` to the requester. -/
inductive Reply where
  | notEnoughMessages (needed found : Nat)
  | analysisFailed (reasoning : String)
  | analysisBlocks (analysis : Suggestion) (duplicateInfo : Option DupResult)
  | errorMessage
deriving Repr, DecidableEq

/-- Observable result of an on-demand command: the (final) reply, the state
afterwards, and whether the LLM collaborator was invoked. -/
structure CmdResult where
  reply : Reply
  state : AppState
  analyzeInvoked : Bool
deriving Repr, DecidableEq

/-- slackHandlers.js `performAnalysis(messages, respond, options)`: threshold
check, LLM call (a throw is caught and answered with a generic apology), the
`analysis.error` gate, then the duplicate check (whose verdict only decorates
the reply) and the unconditional store of any post-worthy result. -/
def performAnalysis (analyze : AnalyzeOracle) (messages : List Msg)
    (nowMs : Int) (st : AppState) : CmdResult :=
  if messages.length < MIN_MESSAGES_FOR_ANALYSIS then
    ⟨.notEnoughMessages MIN_MESSAGES_FOR_ANALYSIS messages.length, st, false⟩
  else
    match analyze messages with
    | .error _ => ⟨.errorMessage, st, true⟩
    | .ok analysis =>
      if analysis.error then ⟨.analysisFailed analysis.reasoning, st, true⟩
      else
        let duplicateInfo :=
          if analysis.isPostWorthy then
            some (checkDuplicate analysis (getStoredSuggestions st.history))
          else none
        let st1 :=
          if analysis.isPostWorthy then
            { st with history := storeSuggestion analysis nowMs st.history }
          else st
        ⟨.analysisBlocks analysis duplicateInfo, st1, true⟩

/-- slackHandlers.js `handleSlashCommand`, `analyze` subcommand: read the
real-time buffer (sweeping it), answer "not enough" below the threshold, else
run `performAnalysis`. -/
def analyzeCommand (analyze : AnalyzeOracle) (channelId : String)
    (now nowMs : Int) (st : AppState) : CmdResult :=
  let swept := getMessages now channelId st.buffers
  let st0 := { st with buffers := swept.1 }
  let messages := swept.2
  if messages.length < MIN_MESSAGES_FOR_ANALYSIS then
    ⟨.notEnoughMessages MIN_MESSAGES_FOR_ANALYSIS messages.length, st0, false⟩
  else performAnalysis analyze messages nowMs st0

/-- slackHandlers.js `handleSlashCommand`, `history` subcommand after a
successful fetch: hand the fetched messages to `performAnalysis` (a failed
fetch is answered with the error message and reaches no further). -/
def historyCommandAfterFetch (analyze : AnalyzeOracle) (messages : List Msg)
    (nowMs : Int) (st : AppState) : CmdResult :=
  performAnalysis analyze messages nowMs st

/-- slackHandlers.js `handleSlashCommand`, `sync` subcommand after a successful
fetch (both the initial-sync and the checkpoint-resume branches behave this
way): advance the sync checkpoint to the newest fetched timestamp whenever at
least one message came back, then hand the messages to `performAnalysis`. -/
def syncCommandAfterFetch (analyze : AnalyzeOracle) (channelId : String)
    (messages : List Msg) (nowMs : Int) (st : AppState) : CmdResult :=
  let st1 :=
    match messages.getLast? with
    | some latest => updateSyncTimestamp channelId latest.timestamp st
    | none => st
  performAnalysis analyze messages nowMs st1

/-! ## Spec-side definitions (for refinement statements) -/

/-- Stated from the spec for claim C7: the maximum similarity between the
candidate text and the primary text of any stored suggestion that has one
(0 when there are none). -/
def maxSimilaritySpec (newContent : String) (stored : List Suggestion) : Rat :=
  ((stored.filter (fun st => firstTruthy st.linkedInDraft st.xDraft != "")).map
    (fun st => calculateSimilarity newContent
      (firstTruthy st.linkedInDraft st.xDraft))).foldr max 0

/-! ## Concrete fixtures for witnesses and counterexamples -/

/-- A post-worthy sample analysis result. -/
def sampleSuggestion : Suggestion :=
  ⟨true, "strong insight", some "We shipped a new caching layer today", none,
    false⟩

/-- An oracle whose LLM call always succeeds with `sampleSuggestion`. -/
def sampleOracle : AnalyzeOracle := fun _ => .ok sampleSuggestion

/-- An oracle whose LLM call always throws (hard call failure). -/
def throwingOracle : AnalyzeOracle := fun _ => .error ()

/-- The state at process start: everything empty. -/
def emptyState : AppState := ⟨[], [], [], []⟩

/-- A human message fixture with the given timestamp token. -/
def mkMsg (u t : String) (ts : Int) : Msg := ⟨some u, some t, ts, ts * 1000⟩

/-- Three qualifying messages (below the analysis threshold of 5). -/
def sampleMsgs3 : List Msg :=
  [mkMsg "U1" "hello world one" 10, mkMsg "U2" "hello world two" 20,
   mkMsg "U3" "hello world three" 30]

/-- Six qualifying messages (above the analysis threshold of 5). -/
def sampleMsgs6 : List Msg :=
  [mkMsg "U1" "hello world one" 10, mkMsg "U2" "hello world two" 20,
   mkMsg "U3" "hello world three" 30, mkMsg "U1" "hello world four" 40,
   mkMsg "U2" "hello world five" 50, mkMsg "U3" "hello world six" 60]

/-- Four qualifying messages whose newest timestamp token is 90. -/
def staleMsgs4 : List Msg :=
  [mkMsg "U1" "already seen aaa" 60, mkMsg "U2" "already seen bbb" 70,
   mkMsg "U3" "already seen ccc" 80, mkMsg "U1" "already seen ddd" 90]

/-- Five qualifying messages whose newest timestamp token is 90. -/
def staleMsgs5 : List Msg :=
  [mkMsg "U1" "already seen aaa" 50, mkMsg "U2" "already seen bbb" 60,
   mkMsg "U3" "already seen ccc" 70, mkMsg "U1" "already seen ddd" 80,
   mkMsg "U2" "already seen eee" 90]

/-- A state whose last-analyzed checkpoint for channel C is the token 100. -/
def checkpointedState : AppState := ⟨[], [], [("C", 100)], []⟩

/-- Three upstream pages arriving out of chronological order; the middle page
carries a bot message that the admission predicate rejects. -/
def samplePages : List HistPage :=
  [⟨[⟨some "U1", some "hello there", 30, none, none⟩], true, some "c1"⟩,
   ⟨[⟨some "U2", some "hello again", 10, none, none⟩,
     ⟨none, some "automated hello", 15, some "B9", none⟩], true, some "c2"⟩,
   ⟨[⟨some "U3", some "hello third", 20, none, none⟩], false, none⟩]

/-- A state already holding `sampleSuggestion` in its suggestion history, so a
repeat of it is a duplicate. -/
def dupSeededState : AppState :=
  ⟨[(generateFingerprint "We shipped a new caching layer today",
      ⟨sampleSuggestion, 0⟩)], [], [], []⟩

/-- A short distinct key for index `i < 100` (kernel-computable, unlike
`toString`). -/
def twoCharKey (i : Nat) : String :=
  String.mk [Char.ofNat (65 + i / 10), Char.ofNat (65 + i % 10)]

/-- A suggestion history at full capacity: 100 entries with pairwise distinct
keys. -/
def bigHist : SuggestionHistory :=
  (List.range 100).map (fun i =>
    (twoCharKey i, ⟨⟨true, "", some (twoCharKey i), none, false⟩, 0⟩))

/-- An older entry stored under the fingerprint of `sampleSuggestion`. -/
def oldSampleEntry : HistoryEntry :=
  ⟨⟨true, "older reasoning", some "We shipped a new caching layer today", none,
    false⟩, 1⟩

/-- A history at full capacity whose oldest-inserted entry carries the
fingerprint of `sampleSuggestion`. -/
def dupHeadHist : SuggestionHistory :=
  (generateFingerprint (primaryText sampleSuggestion), oldSampleEntry) ::
    bigHist.tail

/-- A history at full capacity holding the fingerprint of `sampleSuggestion`
in second position, behind an unrelated oldest entry. -/
def dupMidHist : SuggestionHistory :=
  (twoCharKey 0, ⟨⟨true, "", some (twoCharKey 0), none, false⟩, 0⟩) ::
    (generateFingerprint (primaryText sampleSuggestion), oldSampleEntry) ::
    bigHist.drop 2

/-! ## Helper lemmas about the JS Map embedding -/

theorem mapGet_mapSet_self (m : List (String × α)) (k : String) (v : α) :
    mapGet (mapSet m k v) k = some v := by
  induction m with
  | nil => simp [mapGet, mapSet]
  | cons p rest ih =>
    by_cases hp : p.1 = k
    · simp [mapGet, mapSet, hp]
    · simp [mapGet, mapSet, hp, ih]

theorem mapGet_mapSet_ne (m : List (String × α)) (k k' : String) (v : α)
    (h : k' ≠ k) : mapGet (mapSet m k v) k' = mapGet m k' := by
  induction m with
  | nil => simp [mapGet, mapSet, Ne.symm h]
  | cons p rest ih =>
    by_cases hp : p.1 = k
    · have hpk' : p.1 ≠ k' := fun hh => h (hh ▸ hp)
      simp [mapGet, mapSet, hp, Ne.symm h, hpk']
    · by_cases hq : p.1 = k'
      · simp [mapGet, mapSet, hp, hq, h]
      · simp [mapGet, mapSet, hp, hq, ih]

theorem mapSet_of_not_mem (m : List (String × α)) (k : String) (v : α)
    (h : k ∉ m.map Prod.fst) : mapSet m k v = m ++ [(k, v)] := by
  induction m with
  | nil => rfl
  | cons p rest ih =>
    simp only [List.map_cons, List.mem_cons, not_or] at h
    have hp : (p.1 == k) = false := by simpa using fun hh => h.1 hh.symm
    simp [mapSet, hp, ih h.2]

theorem map_id_of_key_not_mem (rest : List (String × α)) (k : String) (v : α)
    (h : k ∉ rest.map Prod.fst) :
    rest.map (fun p => if p.1 = k then (k, v) else p) = rest := by
  induction rest with
  | nil => rfl
  | cons p r ih =>
    simp only [List.map_cons, List.mem_cons, not_or] at h
    simp [Ne.symm h.1, ih h.2]

theorem mapSet_of_mem_nodup (m : List (String × α)) (k : String) (v : α)
    (hn : (m.map Prod.fst).Nodup) (h : k ∈ m.map Prod.fst) :
    mapSet m k v = m.map (fun p => if p.1 = k then (k, v) else p) := by
  induction m with
  | nil => simp at h
  | cons p rest ih =>
    simp only [List.map_cons, List.nodup_cons] at hn
    by_cases hp : p.1 = k
    · have hk : k ∉ rest.map Prod.fst := hp ▸ hn.1
      simp [mapSet, hp, map_id_of_key_not_mem rest k v hk]
    · simp only [List.map_cons, List.mem_cons] at h
      rcases h with h | h
      · exact absurd h.symm hp
      · simp [mapSet, hp, ih hn.2 h]

theorem length_mapSet_of_mem (m : List (String × α)) (k : String) (v : α)
    (h : k ∈ m.map Prod.fst) : (mapSet m k v).length = m.length := by
  induction m with
  | nil => simp at h
  | cons p rest ih =>
    by_cases hp : p.1 = k
    · simp [mapSet, hp]
    · simp only [List.map_cons, List.mem_cons] at h
      rcases h with h | h
      · exact absurd h.symm hp
      · simp [mapSet, hp, ih h]

theorem length_mapSet_le (m : List (String × α)) (k : String) (v : α) :
    (mapSet m k v).length ≤ m.length + 1 := by
  induction m with
  | nil => simp [mapSet]
  | cons p rest ih =>
    by_cases hp : p.1 = k
    · simp [mapSet, hp]
    · simp only [mapSet, beq_eq_false_iff_ne.mpr hp, Bool.false_eq_true,
        if_false, List.length_cons]
      omega

theorem mapDelete_head (e : String × α) (rest : List (String × α))
    (h : e.1 ∉ rest.map Prod.fst) : mapDelete (e :: rest) e.1 = rest := by
  simp only [mapDelete, List.filter_cons, beq_self_eq_true, Bool.not_true,
    Bool.false_eq_true, if_false]
  refine List.filter_eq_self.mpr ?_
  intro p hp
  have hne : p.1 ≠ e.1 := fun hh => h (hh ▸ List.mem_map_of_mem Prod.fst hp)
  simp [hne]

theorem keys_mapSet_of_not_mem (m : List (String × α)) (k : String) (v : α)
    (h : k ∉ m.map Prod.fst) :
    (mapSet m k v).map Prod.fst = m.map Prod.fst ++ [k] := by
  rw [mapSet_of_not_mem m k v h]; simp

theorem keys_mapSet_of_mem_nodup (m : List (String × α)) (k : String) (v : α)
    (hn : (m.map Prod.fst).Nodup) (h : k ∈ m.map Prod.fst) :
    (mapSet m k v).map Prod.fst = m.map Prod.fst := by
  rw [mapSet_of_mem_nodup m k v hn h]
  rw [List.map_map]
  refine List.map_congr_left ?_
  intro p _
  by_cases hp : p.1 = k <;> simp [hp]

theorem nodup_keys_mapSet (m : List (String × α)) (k : String) (v : α)
    (hn : (m.map Prod.fst).Nodup) : ((mapSet m k v).map Prod.fst).Nodup := by
  by_cases h : k ∈ m.map Prod.fst
  · rw [keys_mapSet_of_mem_nodup m k v hn h]; exact hn
  · rw [keys_mapSet_of_not_mem m k v h]
    simp [List.nodup_append, hn, h]

theorem nodup_keys_mapDelete (m : List (String × α)) (k : String)
    (hn : (m.map Prod.fst).Nodup) : ((mapDelete m k).map Prod.fst).Nodup :=
  hn.sublist (List.Sublist.map Prod.fst (List.filter_sublist m))

theorem getD_eq_empty_of_not_truthy {t : Option String}
    (h : strTruthy t = false) : t.getD "" = "" := by
  cases t with
  | none => rfl
  | some s => simpa [strTruthy] using h

/-- Claim C8: `shouldStore` returns false exactly when the message comes from a
bot/automated sender, is an edit or delete event, or has trimmed text shorter
than 5 characters, and returns true otherwise; as a Lean function it is a pure
predicate by construction. -/
theorem shouldStoreMessage_iff (e : SlackEvent) :
    shouldStoreMessage e = true ↔
      ¬(strTruthy e.bot_id = true ∨ e.subtype = some "bot_message") ∧
      ¬(e.subtype = some "message_changed" ∨
        e.subtype = some "message_deleted") ∧
      MIN_MESSAGE_LENGTH ≤ (trimWs (e.text.getD "").data).length := by
  unfold shouldStoreMessage
  by_cases h1 : (strTruthy e.bot_id || e.subtype == some "bot_message") = true
  · simp only [h1, if_true]
    simp only [Bool.or_eq_true, beq_iff_eq] at h1
    simp [h1]
  · simp only [h1, if_false]
    simp only [Bool.or_eq_true, beq_iff_eq] at h1
    push_neg at h1
    by_cases h2 : (e.subtype == some "message_changed"
        || e.subtype == some "message_deleted") = true
    · simp only [h2, if_true]
      simp only [Bool.or_eq_true, beq_iff_eq] at h2
      simp [h1, h2]
    · simp only [h2, if_false]
      simp only [Bool.or_eq_true, beq_iff_eq] at h2
      push_neg at h2
      by_cases h3 : (!strTruthy e.text
          || decide ((trimWs (e.text.getD "").data).length
              < MIN_MESSAGE_LENGTH)) = true
      · simp only [h3, if_true]
        simp only [Bool.or_eq_true, Bool.not_eq_true', decide_eq_true_eq] at h3
        rcases h3 with h3 | h3
        · have : (e.text.getD "") = "" := getD_eq_empty_of_not_truthy h3
          simp [h1, h2, this, MIN_MESSAGE_LENGTH]
          decide
        · simp [h1, h2]
          omega
      · simp only [h3, if_false]
        simp only [Bool.or_eq_true, Bool.not_eq_true', decide_eq_true_eq] at h3
        push_neg at h3
        simp [h1, h2]
        omega

/-- Claim C1, counterexample: on the sync path with three fetched messages
(below the minimum of five), the invocation does answer "not enough messages"
and does not invoke the analysis collaborator, but the lastSyncTimestamp
checkpoint IS mutated, contradicting the claim as stated. -/
theorem sync_mutates_checkpoint_below_threshold :
    (syncCommandAfterFetch sampleOracle "C1" sampleMsgs3 0 emptyState).reply =
        .notEnoughMessages MIN_MESSAGES_FOR_ANALYSIS 3 ∧
    (syncCommandAfterFetch sampleOracle "C1" sampleMsgs3 0
        emptyState).analyzeInvoked = false ∧
    (syncCommandAfterFetch sampleOracle "C1" sampleMsgs3 0
        emptyState).state.syncTs ≠ emptyState.syncTs := by
  decide

/-- Claim C1 (amended): whenever the gathered candidate count is below the
minimum (5), every invocation path answers "not enough messages" and never
invokes the analysis collaborator, and no lastAnalyzedTimestamp is mutated;
the analyze, history and scheduled paths mutate no checkpoint at all, while
the sync path has already advanced lastSyncTimestamp to the newest fetched
timestamp (whenever at least one message was fetched) before its threshold
check. -/
theorem threshold_stop_no_analysis (analyze : AnalyzeOracle)
    (channelId : String) (now nowMs : Int) (st : AppState)
    (messages : List Msg) :
    (messages.length < MIN_MESSAGES_FOR_ANALYSIS →
      historyCommandAfterFetch analyze messages nowMs st =
        ⟨.notEnoughMessages MIN_MESSAGES_FOR_ANALYSIS messages.length, st,
          false⟩ ∧
      (syncCommandAfterFetch analyze channelId messages nowMs st).reply =
        .notEnoughMessages MIN_MESSAGES_FOR_ANALYSIS messages.length ∧
      (syncCommandAfterFetch analyze channelId messages nowMs
        st).analyzeInvoked = false ∧
      (syncCommandAfterFetch analyze channelId messages nowMs
        st).state.analyzedTs = st.analyzedTs ∧
      (syncCommandAfterFetch analyze channelId messages nowMs
        st).state.history = st.history ∧
      (syncCommandAfterFetch analyze channelId messages nowMs st).state.syncTs
        = (match messages.getLast? with
           | some latest => mapSet st.syncTs channelId latest.timestamp
           | none => st.syncTs) ∧
      runAnalysisChannel analyze channelId (.ok messages) nowMs st =
        ⟨.notEnough messages.length MIN_MESSAGES_FOR_ANALYSIS, st, false,
          none⟩) ∧
    ((getMessages now channelId st.buffers).2.length
        < MIN_MESSAGES_FOR_ANALYSIS →
      (analyzeCommand analyze channelId now nowMs st).reply =
        .notEnoughMessages MIN_MESSAGES_FOR_ANALYSIS
          (getMessages now channelId st.buffers).2.length ∧
      (analyzeCommand analyze channelId now nowMs st).analyzeInvoked = false ∧
      (analyzeCommand analyze channelId now nowMs st).state.syncTs = st.syncTs
        ∧
      (analyzeCommand analyze channelId now nowMs st).state.analyzedTs =
        st.analyzedTs ∧
      (analyzeCommand analyze channelId now nowMs st).state.history =
        st.history) := by
  constructor
  · intro hlen
    refine ⟨?_, ?_, ?_, ?_, ?_, ?_, ?_⟩
    · simp [historyCommandAfterFetch, performAnalysis, hlen]
    · cases hl : messages.getLast? <;>
        simp [syncCommandAfterFetch, performAnalysis, hlen, hl,
          updateSyncTimestamp]
    · cases hl : messages.getLast? <;>
        simp [syncCommandAfterFetch, performAnalysis, hlen, hl,
          updateSyncTimestamp]
    · cases hl : messages.getLast? <;>
        simp [syncCommandAfterFetch, performAnalysis, hlen, hl,
          updateSyncTimestamp]
    · cases hl : messages.getLast? <;>
        simp [syncCommandAfterFetch, performAnalysis, hlen, hl,
          updateSyncTimestamp]
    · cases hl : messages.getLast? <;>
        simp [syncCommandAfterFetch, performAnalysis, hlen, hl,
          updateSyncTimestamp]
    · simp [runAnalysisChannel, hlen]
  · intro hlen
    refine ⟨?_, ?_, ?_, ?_, ?_⟩ <;>
      simp [analyzeCommand, hlen, getMessages] at hlen ⊢ <;>
      simp [hlen]

/-- Witness for the amended claim C1, at three fetched messages on the history
and scheduled paths. -/
theorem threshold_stop_no_analysis_witness :
    sampleMsgs3.length < MIN_MESSAGES_FOR_ANALYSIS ∧
    historyCommandAfterFetch sampleOracle sampleMsgs3 0 emptyState =
      ⟨.notEnoughMessages MIN_MESSAGES_FOR_ANALYSIS sampleMsgs3.length,
        emptyState, false⟩ ∧
    runAnalysisChannel sampleOracle "C1" (.ok sampleMsgs3) 0 emptyState =
      ⟨.notEnough sampleMsgs3.length MIN_MESSAGES_FOR_ANALYSIS, emptyState,
        false, none⟩ :=
  ⟨by decide,
   ((threshold_stop_no_analysis sampleOracle "C1" 0 0 emptyState
      sampleMsgs3).1 (by decide)).1,
   (((((((threshold_stop_no_analysis sampleOracle "C1" 0 0 emptyState
      sampleMsgs3).1 (by decide)).2).2).2).2).2).2⟩

/-- Claim C3: on the scheduled path (threshold and freshness checks passed),
whenever the analysis call returns — with any result, post-worthy or not,
content-level error or not — the last-analyzed checkpoint of the channel is
set to the newest candidate timestamp; when the call throws, the state is
untouched and the outcome is the per-channel failure. -/
theorem scheduled_checkpoint_immediate (analyze : AnalyzeOracle)
    (channelId : String) (messages : List Msg) (latest : Msg) (nowMs : Int)
    (st : AppState)
    (hlen : MIN_MESSAGES_FOR_ANALYSIS ≤ messages.length)
    (hlast : messages.getLast? = some latest)
    (hfresh : ∀ lastTs, getLastAnalyzedTs channelId st = some lastTs →
      lastTs < latest.timestamp) :
    (∀ a, analyze messages = .ok a →
      getLastAnalyzedTs channelId
          (runAnalysisChannel analyze channelId (.ok messages) nowMs st).state
        = some latest.timestamp) ∧
    (analyze messages = .error () →
      (runAnalysisChannel analyze channelId (.ok messages) nowMs st).state
          = st ∧
      (runAnalysisChannel analyze channelId (.ok messages) nowMs st).outcome
          = .analysisFailed) := by
  have hred : runAnalysisChannel analyze channelId (.ok messages) nowMs st =
      runAnalysisAfterChecks analyze channelId messages latest nowMs st := by
    rcases hc : getLastAnalyzedTs channelId st with _ | lastTs
    · simp [runAnalysisChannel, hlast, hc, Nat.not_lt.mpr hlen]
    · have := hfresh lastTs hc
      simp [runAnalysisChannel, hlast, hc, Nat.not_lt.mpr hlen,
        not_le.mpr this]
  rw [hred]
  constructor
  · intro a ha
    simp only [runAnalysisAfterChecks, ha]
    by_cases hgate : (!a.isPostWorthy || a.error) = true
    · simp [hgate, setLastAnalyzedTs, getLastAnalyzedTs, mapGet_mapSet_self]
    · simp only [Bool.not_eq_true] at hgate
      simp only [hgate, Bool.false_eq_true, if_false]
      by_cases hdup : (checkDuplicate a
          (getStoredSuggestions st.history)).isDuplicate = true
      · simp [hdup, setLastAnalyzedTs, getLastAnalyzedTs, mapGet_mapSet_self]
      · simp [hdup, setLastAnalyzedTs, getLastAnalyzedTs, mapGet_mapSet_self]
  · intro ha
    simp [runAnalysisAfterChecks, ha]

/-- Witness for claim C3: six fresh messages; the checkpoint lands on the
newest timestamp (60) on a normal return, and stays absent when the call
throws. -/
theorem scheduled_checkpoint_immediate_witness :
    (MIN_MESSAGES_FOR_ANALYSIS ≤ sampleMsgs6.length ∧
      sampleMsgs6.getLast? = some (mkMsg "U3" "hello world six" 60)) ∧
    getLastAnalyzedTs "C1"
        (runAnalysisChannel sampleOracle "C1" (.ok sampleMsgs6) 0
          emptyState).state = some 60 ∧
    (runAnalysisChannel throwingOracle "C1" (.ok sampleMsgs6) 0
        emptyState).state = emptyState :=
  ⟨⟨by decide, by decide⟩,
   (scheduled_checkpoint_immediate sampleOracle "C1" sampleMsgs6
      (mkMsg "U3" "hello world six" 60) 0 emptyState (by decide) (by decide)
      (by intro lastTs h; simp [getLastAnalyzedTs, emptyState, mapGet] at h)).1
      sampleSuggestion rfl,
   ((scheduled_checkpoint_immediate throwingOracle "C1" sampleMsgs6
      (mkMsg "U3" "hello world six" 60) 0 emptyState (by decide) (by decide)
      (by intro lastTs h; simp [getLastAnalyzedTs, emptyState, mapGet] at h)).2
      rfl).1⟩

/-- Claim C6, counterexample: channel C has the last-analyzed checkpoint 100
and the newest of the four candidates carries timestamp 90 (≤ 100), yet the
scheduled run answers "not enough messages" — not "nothing new" — because the
threshold check runs first. The collaborator is still not invoked. -/
theorem freshness_counterexample_below_threshold :
    (runAnalysisChannel sampleOracle "C" (.ok staleMsgs4) 0
        checkpointedState).outcome =
      .notEnough staleMsgs4.length MIN_MESSAGES_FOR_ANALYSIS ∧
    (runAnalysisChannel sampleOracle "C" (.ok staleMsgs4) 0
        checkpointedState).outcome ≠ .nothingNew := by
  decide

/-- Claim C6 (amended): on the scheduled path, when a last-analyzed checkpoint
exists and the newest candidate timestamp is numerically ≤ that checkpoint, the
analysis collaborator is never invoked and the state is untouched; if
additionally the candidate count meets the minimum (the threshold check runs
first), the outcome is "nothing new". -/
theorem freshness_nothing_new (analyze : AnalyzeOracle) (channelId : String)
    (messages : List Msg) (latest : Msg) (lastTs nowMs : Int) (st : AppState)
    (hckpt : getLastAnalyzedTs channelId st = some lastTs)
    (hlast : messages.getLast? = some latest)
    (hstale : latest.timestamp ≤ lastTs) :
    (MIN_MESSAGES_FOR_ANALYSIS ≤ messages.length →
      runAnalysisChannel analyze channelId (.ok messages) nowMs st =
        ⟨.nothingNew, st, false, none⟩) ∧
    (runAnalysisChannel analyze channelId (.ok messages) nowMs st).state = st ∧
    (runAnalysisChannel analyze channelId (.ok messages) nowMs
      st).analyzeInvoked = false := by
  by_cases hlen : messages.length < MIN_MESSAGES_FOR_ANALYSIS
  · refine ⟨fun h => absurd h (by omega), ?_, ?_⟩ <;>
      simp [runAnalysisChannel, hlen]
  · have hrun : runAnalysisChannel analyze channelId (.ok messages) nowMs st =
        ⟨.nothingNew, st, false, none⟩ := by
      simp [runAnalysisChannel, hlen, hlast, hckpt, hstale]
    exact ⟨fun _ => hrun, by rw [hrun], by rw [hrun]⟩

/-- Witness for the amended claim C6: checkpoint 100, five candidates with
newest timestamp 90; the outcome is "nothing new" and the collaborator is not
invoked. -/
theorem freshness_nothing_new_witness :
    getLastAnalyzedTs "C" checkpointedState = some 100 ∧
    staleMsgs5.getLast? = some (mkMsg "U2" "already seen eee" 90) ∧
    runAnalysisChannel sampleOracle "C" (.ok staleMsgs5) 0 checkpointedState =
      ⟨.nothingNew, checkpointedState, false, none⟩ :=
  ⟨by decide, by decide,
   (freshness_nothing_new sampleOracle "C" staleMsgs5
      (mkMsg "U2" "already seen eee" 90) 100 0 checkpointedState (by decide)
      (by decide) (by decide)).1 (by decide)⟩

/-- Claim C10: on the on-demand path every post-worthy, non-error analysis
result is stored regardless of the duplicate verdict, and the duplicate check
only decorates the reply; on the scheduled path a detected duplicate skips
both the store and the post (only the checkpoint advances). -/
theorem duplicate_policy_split (analyze : AnalyzeOracle) (channelId : String)
    (messages : List Msg) (latest : Msg) (nowMs : Int) (st : AppState)
    (a : Suggestion) (hok : analyze messages = .ok a)
    (herr : a.error = false) (hpw : a.isPostWorthy = true)
    (hlen : MIN_MESSAGES_FOR_ANALYSIS ≤ messages.length) :
    performAnalysis analyze messages nowMs st =
      ⟨.analysisBlocks a
          (some (checkDuplicate a (getStoredSuggestions st.history))),
        { st with history := storeSuggestion a nowMs st.history }, true⟩ ∧
    (messages.getLast? = some latest →
      getLastAnalyzedTs channelId st = none →
      (checkDuplicate a (getStoredSuggestions st.history)).isDuplicate = true →
      runAnalysisChannel analyze channelId (.ok messages) nowMs st =
        ⟨.duplicateSkip, setLastAnalyzedTs channelId latest.timestamp st, true,
          none⟩) := by
  constructor
  · simp [performAnalysis, Nat.not_lt.mpr hlen, hok, herr, hpw]
  · intro hlast hckpt hdup
    have hred : runAnalysisChannel analyze channelId (.ok messages) nowMs st =
        runAnalysisAfterChecks analyze channelId messages latest nowMs st := by
      simp [runAnalysisChannel, hlast, hckpt, Nat.not_lt.mpr hlen]
    rw [hred]
    simp [runAnalysisAfterChecks, hok, herr, hpw, hdup, setLastAnalyzedTs]

/-- Witness for claim C10: with a stored near-identical suggestion, the
on-demand path still stores (history grows and the reply carries the duplicate
info), while the scheduled path only advances the checkpoint. -/
theorem duplicate_policy_split_witness :
    (sampleOracle sampleMsgs6 = .ok sampleSuggestion ∧
      (checkDuplicate sampleSuggestion
        (getStoredSuggestions dupSeededState.history)).isDuplicate = true) ∧
    performAnalysis sampleOracle sampleMsgs6 0 dupSeededState =
      ⟨.analysisBlocks sampleSuggestion
          (some (checkDuplicate sampleSuggestion
            (getStoredSuggestions dupSeededState.history))),
        { dupSeededState with
            history := storeSuggestion sampleSuggestion 0
              dupSeededState.history }, true⟩ ∧
    runAnalysisChannel sampleOracle "C1" (.ok sampleMsgs6) 0 dupSeededState =
      ⟨.duplicateSkip,
        setLastAnalyzedTs "C1" 60 dupSeededState, true, none⟩ :=
  ⟨⟨rfl, by decide⟩,
   (duplicate_policy_split sampleOracle "C1" sampleMsgs6
      (mkMsg "U3" "hello world six" 60) 0 dupSeededState sampleSuggestion rfl
      rfl rfl (by decide)).1,
   (duplicate_policy_split sampleOracle "C1" sampleMsgs6
      (mkMsg "U3" "hello world six" 60) 0 dupSeededState sampleSuggestion rfl
      rfl rfl (by decide)).2 (by decide) (by decide) (by decide)⟩

theorem length_mapDelete_head_le (e : String × α) (rest : List (String × α)) :
    (mapDelete (e :: rest) e.1).length ≤ rest.length := by
  simp only [mapDelete, List.filter_cons, beq_self_eq_true, Bool.not_true,
    Bool.false_eq_true, if_false]
  exact List.length_filter_le _ rest

/-- Claim C2, counterexample: at capacity, re-storing a suggestion whose
fingerprint is already present does not overwrite that entry in place — here
the fingerprint belongs to the oldest-inserted entry of a full store, and the
store call deletes it and re-appends it at the newest position, changing the
key order (the entry ends up last instead of first). -/
theorem restore_at_capacity_not_in_place :
    dupHeadHist.length = MAX_HISTORY_SIZE ∧
    (dupHeadHist.map Prod.fst).head? =
      some (generateFingerprint (primaryText sampleSuggestion)) ∧
    (storeSuggestion sampleSuggestion 7 dupHeadHist).map Prod.fst ≠
      dupHeadHist.map Prod.fst ∧
    ((storeSuggestion sampleSuggestion 7 dupHeadHist).map
      Prod.fst).getLast? =
      some (generateFingerprint (primaryText sampleSuggestion)) := by
  decide

/-- Claim C2 (amended): the suggestion store never exceeds MAX_HISTORY (100)
entries and keys stay pairwise distinct; at capacity every store call with a
non-empty fingerprint first evicts the single oldest-inserted entry (FIFO by
insertion order) — even when the fingerprint is already present: a re-stored
fingerprint that is itself the oldest entry is evicted and re-appended at the
newest position (not overwritten in place), and a re-stored fingerprint held
elsewhere is overwritten in place while the unrelated oldest entry is still
evicted, shrinking the store by one; re-storing a present fingerprint never
grows the store, and below capacity it overwrites that entry in place. -/
theorem suggestion_store_bounded :
    (∀ (s : Suggestion) (nowMs : Int) (hist : SuggestionHistory),
      hist.length ≤ MAX_HISTORY_SIZE →
      (storeSuggestion s nowMs hist).length ≤ MAX_HISTORY_SIZE) ∧
    (∀ (s : Suggestion) (nowMs : Int) (hist : SuggestionHistory),
      (hist.map Prod.fst).Nodup →
      ((storeSuggestion s nowMs hist).map Prod.fst).Nodup) ∧
    (∀ (s : Suggestion) (nowMs : Int) (hist : SuggestionHistory),
      (hist.map Prod.fst).Nodup →
      hist.length = MAX_HISTORY_SIZE →
      generateFingerprint (primaryText s) ≠ "" →
      generateFingerprint (primaryText s) ∉ hist.map Prod.fst →
      storeSuggestion s nowMs hist =
        hist.tail ++ [(generateFingerprint (primaryText s), ⟨s, nowMs⟩)]) ∧
    (∀ (s : Suggestion) (nowMs : Int) (hist : SuggestionHistory),
      (hist.map Prod.fst).Nodup →
      generateFingerprint (primaryText s) ≠ "" →
      generateFingerprint (primaryText s) ∈ hist.map Prod.fst →
      (storeSuggestion s nowMs hist).length ≤ hist.length ∧
      (hist.length < MAX_HISTORY_SIZE →
        storeSuggestion s nowMs hist =
          hist.map (fun p =>
            if p.1 = generateFingerprint (primaryText s)
            then (generateFingerprint (primaryText s), ⟨s, nowMs⟩) else p))) ∧
    (∀ (s : Suggestion) (nowMs : Int) (e : String × HistoryEntry)
      (rest : SuggestionHistory),
      ((e :: rest).map Prod.fst).Nodup →
      (e :: rest).length = MAX_HISTORY_SIZE →
      generateFingerprint (primaryText s) ≠ "" →
      e.1 = generateFingerprint (primaryText s) →
      storeSuggestion s nowMs (e :: rest) =
        rest ++ [(generateFingerprint (primaryText s), ⟨s, nowMs⟩)]) ∧
    (∀ (s : Suggestion) (nowMs : Int) (e : String × HistoryEntry)
      (rest : SuggestionHistory),
      ((e :: rest).map Prod.fst).Nodup →
      (e :: rest).length = MAX_HISTORY_SIZE →
      generateFingerprint (primaryText s) ≠ "" →
      e.1 ≠ generateFingerprint (primaryText s) →
      generateFingerprint (primaryText s) ∈ rest.map Prod.fst →
      storeSuggestion s nowMs (e :: rest) =
        rest.map (fun p =>
          if p.1 = generateFingerprint (primaryText s)
          then (generateFingerprint (primaryText s), ⟨s, nowMs⟩) else p) ∧
      (storeSuggestion s nowMs (e :: rest)).length = rest.length) := by
  refine ⟨?_, ?_, ?_, ?_, ?_, ?_⟩
  · intro s nowMs hist h
    by_cases hfp : generateFingerprint (primaryText s) = ""
    · simpa [storeSuggestion, hfp] using h
    · simp only [storeSuggestion, hfp, if_false]
      by_cases hcap : MAX_HISTORY_SIZE ≤ hist.length
      · cases hist with
        | nil => simp [mapSet, MAX_HISTORY_SIZE]
        | cons e rest =>
          simp only [hcap, if_true]
          have h1 := length_mapDelete_head_le e rest
          have h2 := length_mapSet_le
            (mapDelete (e :: rest) e.1) (generateFingerprint (primaryText s))
            (⟨s, nowMs⟩ : HistoryEntry)
          simp only [List.length_cons, MAX_HISTORY_SIZE] at *
          omega
      · simp only [hcap, if_false]
        have h2 := length_mapSet_le hist (generateFingerprint (primaryText s))
          (⟨s, nowMs⟩ : HistoryEntry)
        simp only [MAX_HISTORY_SIZE] at *
        omega
  · intro s nowMs hist hn
    by_cases hfp : generateFingerprint (primaryText s) = ""
    · simpa [storeSuggestion, hfp] using hn
    · simp only [storeSuggestion, hfp, if_false]
      by_cases hcap : MAX_HISTORY_SIZE ≤ hist.length
      · cases hist with
        | nil => simp [mapSet]
        | cons e rest =>
          simp only [hcap, if_true]
          exact nodup_keys_mapSet _ _ _ (nodup_keys_mapDelete _ _ hn)
      · simp only [hcap, if_false]
        exact nodup_keys_mapSet _ _ _ hn
  · intro s nowMs hist hn hlen hfp hfresh
    cases hist with
    | nil => simp [MAX_HISTORY_SIZE] at hlen
    | cons e rest =>
      simp only [List.map_cons, List.nodup_cons] at hn
      have hdel : mapDelete (e :: rest) e.1 = rest := mapDelete_head e rest hn.1
      have hcap : MAX_HISTORY_SIZE ≤ (e :: rest).length := by omega
      simp only [storeSuggestion, hfp, if_false, hcap, if_true, hdel]
      have hfr : generateFingerprint (primaryText s) ∉ rest.map Prod.fst := by
        intro hmem
        exact hfresh (by simp [hmem])
      rw [mapSet_of_not_mem rest _ _ hfr]
      rfl
  · intro s nowMs hist hn hfp hmem
    constructor
    · by_cases hcap : MAX_HISTORY_SIZE ≤ hist.length
      · cases hist with
        | nil => simp at hmem
        | cons e rest =>
          simp only [storeSuggestion, hfp, if_false, hcap, if_true]
          simp only [List.map_cons, List.nodup_cons] at hn
          have hdel : mapDelete (e :: rest) e.1 = rest :=
            mapDelete_head e rest hn.1
          rw [hdel]
          by_cases hke : generateFingerprint (primaryText s) = e.1
          · have hfr : generateFingerprint (primaryText s) ∉
                rest.map Prod.fst := hke ▸ hn.1
            rw [mapSet_of_not_mem rest _ _ hfr]
            simp
          · have hmem' : generateFingerprint (primaryText s) ∈
                rest.map Prod.fst := by
              simp only [List.map_cons, List.mem_cons] at hmem
              exact hmem.resolve_left hke
            rw [length_mapSet_of_mem rest _ _ hmem']
            simp
      · simp only [storeSuggestion, hfp, if_false, hcap, if_false]
        rw [length_mapSet_of_mem hist _ _ hmem]
    · intro hlt
      have hcap : ¬ MAX_HISTORY_SIZE ≤ hist.length := by omega
      simp only [storeSuggestion, hfp, if_false, hcap, if_false]
      exact mapSet_of_mem_nodup hist _ _ hn hmem
  · intro s nowMs e rest hn hlen hfp hkey
    simp only [List.map_cons, List.nodup_cons] at hn
    have hdel : mapDelete (e :: rest) e.1 = rest := mapDelete_head e rest hn.1
    have hcap : MAX_HISTORY_SIZE ≤ (e :: rest).length := by omega
    simp only [storeSuggestion, hfp, if_false, hcap, if_true, hdel]
    have hfr : generateFingerprint (primaryText s) ∉ rest.map Prod.fst := by
      rw [← hkey]
      exact hn.1
    rw [mapSet_of_not_mem rest _ _ hfr]
  · intro s nowMs e rest hn hlen hfp hkey hmem
    simp only [List.map_cons, List.nodup_cons] at hn
    have hdel : mapDelete (e :: rest) e.1 = rest := mapDelete_head e rest hn.1
    have hcap : MAX_HISTORY_SIZE ≤ (e :: rest).length := by omega
    constructor
    · simp only [storeSuggestion, hfp, if_false, hcap, if_true, hdel]
      exact mapSet_of_mem_nodup rest _ _ hn.2 hmem
    · simp only [storeSuggestion, hfp, if_false, hcap, if_true, hdel]
      exact length_mapSet_of_mem rest _ _ hmem

/-- Witness for claim C2 (amended): a full 100-entry history with distinct
keys; storing a fresh-fingerprint suggestion evicts exactly the first entry;
re-storing an already-present fingerprint below capacity overwrites in place;
at capacity, re-storing the oldest fingerprint re-appends it at the newest
position, and re-storing a non-oldest fingerprint shrinks the store to 99. -/
theorem suggestion_store_bounded_witness :
    (bigHist.length = MAX_HISTORY_SIZE ∧
      (bigHist.map Prod.fst).Nodup ∧
      generateFingerprint (primaryText sampleSuggestion) ∉
        bigHist.map Prod.fst) ∧
    storeSuggestion sampleSuggestion 0 bigHist =
      bigHist.tail ++
        [(generateFingerprint (primaryText sampleSuggestion),
          ⟨sampleSuggestion, 0⟩)] ∧
    storeSuggestion sampleSuggestion 7 dupSeededState.history =
      dupSeededState.history.map (fun p =>
        if p.1 = generateFingerprint (primaryText sampleSuggestion)
        then (generateFingerprint (primaryText sampleSuggestion),
          ⟨sampleSuggestion, 7⟩) else p) ∧
    storeSuggestion sampleSuggestion 7 dupHeadHist =
      bigHist.tail ++
        [(generateFingerprint (primaryText sampleSuggestion),
          ⟨sampleSuggestion, 7⟩)] ∧
    (storeSuggestion sampleSuggestion 9 dupMidHist).length = 99 :=
  ⟨⟨by decide, by decide, by decide⟩,
   (suggestion_store_bounded.2.2.1 sampleSuggestion 0 bigHist (by decide)
      (by decide) (by decide) (by decide)),
   ((suggestion_store_bounded.2.2.2.1 sampleSuggestion 7
      dupSeededState.history (by decide) (by decide) (by decide)).2
      (by decide)),
   (suggestion_store_bounded.2.2.2.2.1 sampleSuggestion 7
      (generateFingerprint (primaryText sampleSuggestion), oldSampleEntry)
      bigHist.tail (by decide) (by decide) (by decide) rfl),
   Eq.trans
     ((suggestion_store_bounded.2.2.2.2.2 sampleSuggestion 9
        (twoCharKey 0, ⟨⟨true, "", some (twoCharKey 0), none, false⟩, 0⟩)
        ((generateFingerprint (primaryText sampleSuggestion),
          oldSampleEntry) :: bigHist.drop 2)
        (by decide) (by decide) (by decide) (by decide) (by decide)).2)
     (by decide)⟩

theorem mapGet_mapDelete_self (m : List (String × α)) (k : String) :
    mapGet (mapDelete m k) k = none := by
  induction m with
  | nil => rfl
  | cons p rest ih =>
    by_cases hp : p.1 = k
    · simpa [mapDelete, hp] using ih
    · simpa [mapDelete, mapGet, hp] using ih

theorem cleanup_spec (now : Int) (channelId : String) (bufs : Buffers) :
    (mapGet (cleanupOldMessages now channelId bufs) channelId).getD [] =
      ((mapGet bufs channelId).getD []).filter
        (fun m => now - BUFFER_WINDOW_MS < m.addedAt) ∧
    (((mapGet bufs channelId).getD []).filter
        (fun m => now - BUFFER_WINDOW_MS < m.addedAt) = [] →
      mapGet (cleanupOldMessages now channelId bufs) channelId = none) := by
  rcases h : mapGet bufs channelId with _ | buffer
  · constructor
    · simp [cleanupOldMessages, h]
    · intro _
      simp only [cleanupOldMessages, h]
  · by_cases hf : (buffer.filter
        (fun m => now - BUFFER_WINDOW_MS < m.addedAt)).length = 0
    · have hnil : buffer.filter
          (fun m => now - BUFFER_WINDOW_MS < m.addedAt) = [] :=
        List.length_eq_zero.mp hf
      constructor
      · simp [cleanupOldMessages, h, hf, mapGet_mapDelete_self, hnil]
      · intro _
        simp [cleanupOldMessages, h, hf, mapGet_mapDelete_self]
    · constructor
      · simp [cleanupOldMessages, h, hf, mapGet_mapSet_self]
      · intro hnil
        simp only [Option.getD_some] at hnil
        rw [hnil] at hf
        simp at hf

/-- Claim C4: after any buffer read or write at wall-clock time `now`, the
channel's buffer retains exactly the messages with
`addedAt > now - windowDuration`; every retained message (and the freshly
appended one on a write) lies in the window `[now - windowDuration, now]`
given that no stored `addedAt` lies in the future; and when nothing survives a
read's sweep, the channel key is removed from the mapping entirely. -/
theorem buffer_window_invariant (now : Int) (channelId : String)
    (bufs : Buffers) (user text : Option String) (timestamp : Int) :
    ((getMessages now channelId bufs).2 =
      ((mapGet bufs channelId).getD []).filter
        (fun m => now - BUFFER_WINDOW_MS < m.addedAt)) ∧
    (∀ m ∈ (getMessages now channelId bufs).2,
      now - BUFFER_WINDOW_MS < m.addedAt ∧
      ((∀ m' ∈ (mapGet bufs channelId).getD [], m'.addedAt ≤ now) →
        m.addedAt ≤ now)) ∧
    (((mapGet bufs channelId).getD []).filter
        (fun m => now - BUFFER_WINDOW_MS < m.addedAt) = [] →
      mapGet (getMessages now channelId bufs).1 channelId = none) ∧
    (mapGet (addMessage now channelId user text timestamp bufs) channelId =
      some (((mapGet bufs channelId).getD []).filter
          (fun m => now - BUFFER_WINDOW_MS < m.addedAt) ++
        [⟨user, text, timestamp, now⟩])) ∧
    (∀ m ∈ (mapGet (addMessage now channelId user text timestamp bufs)
        channelId).getD [],
      now - BUFFER_WINDOW_MS < m.addedAt ∧
      ((∀ m' ∈ (mapGet bufs channelId).getD [], m'.addedAt ≤ now) →
        m.addedAt ≤ now)) := by
  obtain ⟨hclean, hdel⟩ := cleanup_spec now channelId bufs
  have hget2 : (getMessages now channelId bufs).2 =
      ((mapGet bufs channelId).getD []).filter
        (fun m => now - BUFFER_WINDOW_MS < m.addedAt) := by
    simpa [getMessages] using hclean
  have hwin : (0 : Int) < BUFFER_WINDOW_MS := by decide
  have hadd : mapGet (addMessage now channelId user text timestamp bufs)
      channelId =
      some (((mapGet bufs channelId).getD []).filter
          (fun m => now - BUFFER_WINDOW_MS < m.addedAt) ++
        [⟨user, text, timestamp, now⟩]) := by
    rcases hb1 : mapGet (cleanupOldMessages now channelId bufs) channelId
      with _ | buf1
    · have : ((mapGet bufs channelId).getD []).filter
          (fun m => now - BUFFER_WINDOW_MS < m.addedAt) = [] := by
        rw [← hclean, hb1]; rfl
      simp [addMessage, hb1, mapGet_mapSet_self, this]
    · simp only [addMessage, hb1, Option.isNone_some, Bool.false_eq_true,
        if_false]
      rw [mapGet_mapSet_self]
      rw [hb1] at hclean
      simp only [Option.getD_some] at hclean
      rw [hclean]
      simp only [Option.getD_some]
  refine ⟨hget2, ?_, ?_, hadd, ?_⟩
  · intro m hm
    rw [hget2] at hm
    have h1 := List.of_mem_filter hm
    have h2 := List.mem_of_mem_filter hm
    exact ⟨by simpa using h1, fun hall => hall m h2⟩
  · intro hnil
    simpa [getMessages] using hdel hnil
  · intro m hm
    rw [hadd] at hm
    simp only [Option.getD_some, List.mem_append, List.mem_singleton] at hm
    rcases hm with hm | hm
    · have h1 := List.of_mem_filter hm
      have h2 := List.mem_of_mem_filter hm
      exact ⟨by simpa using h1, fun hall => hall m h2⟩
    · subst hm
      refine ⟨?_, fun _ => le_refl now⟩
      show now - BUFFER_WINDOW_MS < now
      omega

/-- Witness for claim C4 at the spec's example: a message added at t = 0 and
read at 4h + 1s is swept, and the channel key is gone; the freshly added
message at `now` survives. -/
theorem buffer_window_invariant_witness :
    (([(("C" : String), [(⟨some "U1", some "hello world", 0, 0⟩ : Msg)])] :
        Buffers).filter (fun _ => true) ≠ [] ∧
      ((mapGet ([(("C" : String),
          [(⟨some "U1", some "hello world", 0, 0⟩ : Msg)])] : Buffers)
        "C").getD []).filter
          (fun m => (14400001 : Int) - BUFFER_WINDOW_MS < m.addedAt) = []) ∧
    mapGet (getMessages 14400001 "C"
      [("C", [(⟨some "U1", some "hello world", 0, 0⟩ : Msg)])]).1 "C" = none ∧
    mapGet (addMessage 14400001 "C" (some "U2") (some "hello again") 9
      [("C", [(⟨some "U1", some "hello world", 0, 0⟩ : Msg)])]) "C" =
      some [⟨some "U2", some "hello again", 9, 14400001⟩] :=
  ⟨⟨by decide, by decide⟩,
   (buffer_window_invariant 14400001 "C"
      [("C", [(⟨some "U1", some "hello world", 0, 0⟩ : Msg)])]
      (some "U2") (some "hello again") 9).2.2.1 (by decide),
   (buffer_window_invariant 14400001 "C"
      [("C", [(⟨some "U1", some "hello world", 0, 0⟩ : Msg)])]
      (some "U2") (some "hello again") 9).2.2.2.1⟩

theorem fetchSlackHistoryAux_eq_flatten (pages : List HistPage)
    (hmore : ∀ p ∈ pages.dropLast, pageHasMore p = true) :
    fetchSlackHistoryAux pages = (pages.map keepPage).flatten := by
  induction pages with
  | nil => rfl
  | cons p rest ih =>
    cases rest with
    | nil =>
      simp only [List.map_cons, List.map_nil, List.flatten_cons,
        List.flatten_nil]
      cases hp : pageHasMore p <;> simp [fetchSlackHistoryAux, hp]
    | cons q rest' =>
      have hp : pageHasMore p = true := by
        apply hmore
        simp [List.dropLast_cons₂]
      have hrest : ∀ r ∈ (q :: rest').dropLast, pageHasMore r = true := by
        intro r hr
        apply hmore
        simp only [List.dropLast_cons₂, List.mem_cons]
        right
        exact hr
      have hstep : fetchSlackHistoryAux (p :: q :: rest') =
          keepPage p ++ (if pageHasMore p = true then
            fetchSlackHistoryAux (q :: rest') else []) := rfl
      rw [hstep, if_pos hp, ih hrest]
      simp

theorem flatten_keepPage_eq_filter_map (pages : List HistPage) :
    (pages.map keepPage).flatten =
      (((pages.map (fun p => p.messages)).flatten).filter
        shouldStoreMessage).map convertHistMsg := by
  induction pages with
  | nil => rfl
  | cons p rest ih =>
    simp only [List.map_cons, List.flatten_cons, List.filter_append,
      List.map_append, keepPage]
    rw [ih]

/-- Claim C5: the history fetch follows the cursor until the upstream reports
no more pages, keeps on every page exactly the messages admitted by the same
predicate as the buffer (`shouldStoreMessage`), accumulates them across pages,
and the returned list is fully ascending under numeric timestamp comparison —
a permutation of the admitted messages of all pages, whatever order the pages
arrived in. -/
theorem fetch_history_sorted_filtered (pages : List HistPage)
    (hmore : ∀ p ∈ pages.dropLast, pageHasMore p = true) :
    (fetchSlackHistory pages).Pairwise
      (fun a b => a.timestamp ≤ b.timestamp) ∧
    (fetchSlackHistory pages).Perm
      ((((pages.map (fun p => p.messages)).flatten).filter
        shouldStoreMessage).map convertHistMsg) := by
  constructor
  · have hs := @List.sorted_mergeSort Msg tsLe
      (fun a b c hab hbc => by
        simp only [tsLe, decide_eq_true_eq] at *
        omega)
      (fun a b => by
        simp only [tsLe, Bool.or_eq_true, decide_eq_true_eq]
        omega)
      (fetchSlackHistoryAux pages)
    refine List.Pairwise.imp ?_ hs
    intro a b hab
    simpa [tsLe] using hab
  · have hp : (fetchSlackHistory pages).Perm (fetchSlackHistoryAux pages) :=
      List.mergeSort_perm (fetchSlackHistoryAux pages) tsLe
    rw [fetchSlackHistoryAux_eq_flatten pages hmore,
      flatten_keepPage_eq_filter_map pages] at hp
    exact hp

/-- Witness for claim C5: three pages delivered out of chronological order
(with one bot message to be filtered out); the fetch result is ascending and a
permutation of the admitted messages. -/
theorem fetch_history_sorted_filtered_witness :
    (∀ p ∈ samplePages.dropLast, pageHasMore p = true) ∧
    (fetchSlackHistory samplePages).Pairwise
      (fun a b => a.timestamp ≤ b.timestamp) ∧
    (fetchSlackHistory samplePages).Perm
      ((((samplePages.map (fun p => p.messages)).flatten).filter
        shouldStoreMessage).map convertHistMsg) :=
  ⟨by decide,
   (fetch_history_sorted_filtered samplePages (by decide)).1,
   (fetch_history_sorted_filtered samplePages (by decide)).2⟩

theorem calculateSimilarity_nonneg (t1 t2 : String) :
    0 ≤ calculateSimilarity t1 t2 := by
  unfold calculateSimilarity calculateJaccardSimilarity
  by_cases hfp : generateFingerprint t1 = generateFingerprint t2
  · simp [hfp]
  · simp only [hfp, if_false]
    split
    · exact zero_le_one
    · split
      · exact le_refl 0
      · rw [Rat.mkRat_eq_div]
        positivity

theorem maxSimilaritySpec_cons_skip (n : String) (st : Suggestion)
    (rest : List Suggestion) (h : firstTruthy st.linkedInDraft st.xDraft = "") :
    maxSimilaritySpec n (st :: rest) = maxSimilaritySpec n rest := by
  simp [maxSimilaritySpec, List.filter_cons, h]

theorem maxSimilaritySpec_cons (n : String) (st : Suggestion)
    (rest : List Suggestion)
    (h : ¬ firstTruthy st.linkedInDraft st.xDraft = "") :
    maxSimilaritySpec n (st :: rest) =
      max (calculateSimilarity n (firstTruthy st.linkedInDraft st.xDraft))
        (maxSimilaritySpec n rest) := by
  simp [maxSimilaritySpec, List.filter_cons, h]

theorem maxSimilaritySpec_nonneg (n : String) (stored : List Suggestion) :
    0 ≤ maxSimilaritySpec n stored := by
  induction stored with
  | nil => exact le_refl 0
  | cons st rest ih =>
    by_cases h : firstTruthy st.linkedInDraft st.xDraft = ""
    · rw [maxSimilaritySpec_cons_skip n st rest h]; exact ih
    · rw [maxSimilaritySpec_cons n st rest h]
      exact le_max_of_le_right ih

theorem checkDupLoop_threshold (newContent : String) (t : Rat)
    (ht : t ≤ mkRat 99 100) :
    ∀ (stored : List Suggestion) (acc : Rat) (best : Option Suggestion),
      0 ≤ acc →
      (t ≤ (checkDupLoop newContent stored acc best).1 ↔
        t ≤ max acc (maxSimilaritySpec newContent stored)) := by
  intro stored
  induction stored with
  | nil =>
    intro acc best hacc
    simp [checkDupLoop, maxSimilaritySpec, max_eq_left hacc]
  | cons st rest ih =>
    intro acc best hacc
    by_cases hsc : firstTruthy st.linkedInDraft st.xDraft = ""
    · rw [maxSimilaritySpec_cons_skip newContent st rest hsc]
      simpa [checkDupLoop, hsc] using ih acc best hacc
    · rw [maxSimilaritySpec_cons newContent st rest hsc]
      have hsim0 : 0 ≤ calculateSimilarity newContent
          (firstTruthy st.linkedInDraft st.xDraft) :=
        calculateSimilarity_nonneg _ _
      set sim := calculateSimilarity newContent
        (firstTruthy st.linkedInDraft st.xDraft) with hsimdef
      have hmax : (if acc < sim then sim else acc) = max acc sim := by
        rcases lt_or_ge acc sim with h | h
        · rw [if_pos h, max_eq_right (le_of_lt h)]
        · rw [if_neg (not_lt.mpr h), max_eq_left h]
      by_cases hbrk : mkRat 99 100 ≤ sim
      · have hlhs : (checkDupLoop newContent (st :: rest) acc best).1 =
            max acc sim := by
          simp [checkDupLoop, hsc, hbrk, hmax]
        rw [hlhs]
        constructor
        · intro _
          exact le_trans (le_trans ht hbrk)
            (le_max_of_le_right (le_max_left _ _))
        · intro _
          exact le_trans (le_trans ht hbrk) (le_max_right _ _)
      · have hlhs : (checkDupLoop newContent (st :: rest) acc best).1 =
            (checkDupLoop newContent rest (max acc sim)
              (if acc < sim then some st else best)).1 := by
          simp [checkDupLoop, hsc, hbrk, hmax]
        rw [hlhs,
          ih (max acc sim) (if acc < sim then some st else best)
            (le_trans hacc (le_max_left _ _)),
          max_assoc]

/-- Claim C7: `checkDuplicate` answers `{false, 0, null}` without scanning when
the store is empty or the candidate has no usable primary text; otherwise
`isDuplicate` is true exactly when the maximum similarity between the
candidate's primary text and the primary text of any stored suggestion that
has one reaches the 0.8 threshold (the 0.99 early exit cannot change the
verdict, since 0.8 ≤ 0.99). -/
theorem checkDuplicate_iff (s : Suggestion) (stored : List Suggestion) :
    ((stored = [] ∨ firstTruthy s.linkedInDraft s.xDraft = "") →
      checkDuplicate s stored = ⟨false, 0, none⟩) ∧
    (stored ≠ [] → firstTruthy s.linkedInDraft s.xDraft ≠ "" →
      ((checkDuplicate s stored).isDuplicate = true ↔
        SIMILARITY_THRESHOLD ≤
          maxSimilaritySpec (firstTruthy s.linkedInDraft s.xDraft) stored)) := by
  constructor
  · rintro (h | h)
    · simp [checkDuplicate, h]
    · by_cases hlen : stored.length = 0
      · simp [checkDuplicate, hlen]
      · simp [checkDuplicate, hlen, h]
  · intro hne hcontent
    have hlen : ¬ stored.length = 0 := by
      simpa [List.length_eq_zero] using hne
    simp only [checkDuplicate, hlen, if_false, hcontent]
    have hloop := checkDupLoop_threshold
      (firstTruthy s.linkedInDraft s.xDraft) SIMILARITY_THRESHOLD
      (by decide) stored 0 none (le_refl 0)
    rw [max_eq_right (maxSimilaritySpec_nonneg _ _)] at hloop
    simpa using hloop

/-- Witness for claim C7: the empty store answers `{false, 0, null}`, and on a
store holding a near-identical prior suggestion the duplicate verdict agrees
with the threshold test on the spec-side maximum similarity. -/
theorem checkDuplicate_iff_witness :
    checkDuplicate sampleSuggestion [] = ⟨false, 0, none⟩ ∧
    (getStoredSuggestions dupSeededState.history ≠ [] ∧
      firstTruthy sampleSuggestion.linkedInDraft sampleSuggestion.xDraft ≠ "")
      ∧
    ((checkDuplicate sampleSuggestion
        (getStoredSuggestions dupSeededState.history)).isDuplicate = true ↔
      SIMILARITY_THRESHOLD ≤ maxSimilaritySpec
        (firstTruthy sampleSuggestion.linkedInDraft sampleSuggestion.xDraft)
        (getStoredSuggestions dupSeededState.history)) :=
  ⟨(checkDuplicate_iff sampleSuggestion []).1 (Or.inl rfl),
   ⟨by decide, by decide⟩,
   (checkDuplicate_iff sampleSuggestion
      (getStoredSuggestions dupSeededState.history)).2 (by decide)
      (by decide)⟩

/-! ## Fingerprint idempotence infrastructure (claim C9) -/

theorem char_toNat_ofNat_of_valid {n : Nat} (h : n.isValidChar) :
    (Char.ofNat n).toNat = n := by
  simp only [Char.ofNat, h, dif_pos, Char.ofNatAux, Char.toNat, UInt32.toNat]
  rfl

theorem toLower_eq (c : Char) :
    Char.toLower c =
      if c.toNat ≥ 65 ∧ c.toNat ≤ 90 then Char.ofNat (c.toNat + 32) else c :=
  rfl

theorem toLower_idem (c : Char) :
    Char.toLower (Char.toLower c) = Char.toLower c := by
  by_cases h : c.toNat ≥ 65 ∧ c.toNat ≤ 90
  · rw [toLower_eq c, if_pos h]
    have hv : (c.toNat + 32).isValidChar := by left; omega
    have h2 : (Char.ofNat (c.toNat + 32)).toNat = c.toNat + 32 :=
      char_toNat_ofNat_of_valid hv
    rw [toLower_eq, h2, if_neg (by omega)]
  · rw [toLower_eq c, if_neg h, toLower_eq c, if_neg h]

/-- The no-two-adjacent-whitespace relation used to characterize collapsed
strings. -/
def NoAdjWs (a b : Char) : Prop :=
  ¬(isSpaceJS a = true ∧ isSpaceJS b = true)

theorem mem_collapseWs {c : Char} :
    ∀ l : List Char, c ∈ collapseWs l →
      c = ' ' ∨ (c ∈ l ∧ isSpaceJS c = false) := by
  intro l
  induction l with
  | nil => intro h; simp [collapseWs] at h
  | cons a t ih =>
    cases t with
    | nil =>
      intro h
      by_cases ha : isSpaceJS a = true
      · left
        simpa [collapseWs, ha] using h
      · right
        simp only [collapseWs, ha, Bool.false_eq_true, if_false,
          List.mem_singleton] at h
        subst h
        exact ⟨List.mem_singleton_self c, by simpa using ha⟩
    | cons b rest =>
      intro h
      by_cases hab : (isSpaceJS a && isSpaceJS b) = true
      · have h' : c ∈ collapseWs (b :: rest) := by
          simpa [collapseWs, hab] using h
        rcases ih h' with h'' | ⟨hm, hs⟩
        · exact Or.inl h''
        · exact Or.inr ⟨List.mem_cons_of_mem a hm, hs⟩
      · simp only [collapseWs, hab, Bool.false_eq_true, if_false,
          List.mem_cons] at h
        rcases h with h | h
        · by_cases ha : isSpaceJS a = true
          · left
            simpa [ha] using h
          · right
            simp only [ha, Bool.false_eq_true, if_false] at h
            subst h
            exact ⟨List.mem_cons_self c (b :: rest), by simpa using ha⟩
        · rcases ih h with h'' | ⟨hm, hs⟩
          · exact Or.inl h''
          · exact Or.inr ⟨List.mem_cons_of_mem a hm, hs⟩

theorem collapseWs_head_space :
    ∀ (l : List Char) (c : Char) (rest' : List Char),
      collapseWs l = c :: rest' → isSpaceJS c = true →
      ∃ d tl, l = d :: tl ∧ isSpaceJS d = true := by
  intro l
  induction l with
  | nil => intro c rest' h; simp [collapseWs] at h
  | cons a t ih =>
    cases t with
    | nil =>
      intro c rest' h hc
      by_cases ha : isSpaceJS a = true
      · exact ⟨a, [], rfl, ha⟩
      · simp only [collapseWs, ha, Bool.false_eq_true, if_false,
          List.cons.injEq] at h
        rw [← h.1] at hc
        exact absurd hc ha
    | cons b rest =>
      intro c rest' h hc
      by_cases hab : (isSpaceJS a && isSpaceJS b) = true
      · have h' : isSpaceJS a = true ∧ isSpaceJS b = true := by simpa using hab
        exact ⟨a, b :: rest, rfl, h'.1⟩
      · simp only [collapseWs, hab, Bool.false_eq_true, if_false,
          List.cons.injEq] at h
        by_cases ha : isSpaceJS a = true
        · exact ⟨a, b :: rest, rfl, ha⟩
        · rw [if_neg ha] at h
          rw [← h.1] at hc
          exact absurd hc ha

theorem chain'_collapseWs : ∀ l : List Char, (collapseWs l).Chain' NoAdjWs := by
  intro l
  induction l with
  | nil => simp [collapseWs]
  | cons a t ih =>
    cases t with
    | nil =>
      by_cases ha : isSpaceJS a = true <;> simp [collapseWs, ha]
    | cons b rest =>
      by_cases hab : (isSpaceJS a && isSpaceJS b) = true
      · simpa [collapseWs, hab] using ih
      · simp only [collapseWs, hab, Bool.false_eq_true, if_false]
        rw [List.chain'_cons']
        refine ⟨?_, ih⟩
        intro c hc
        rcases hh : collapseWs (b :: rest) with _ | ⟨c0, rest0⟩
        · rw [hh] at hc; simp at hc
        · rw [hh] at hc
          simp only [List.head?_cons, Option.mem_def, Option.some.injEq] at hc
          subst hc
          rintro ⟨h1, h2⟩
          obtain ⟨d, tl, hdt, hd⟩ := collapseWs_head_space (b :: rest) c0
            rest0 hh h2
          have hb : isSpaceJS b = true := by
            have hbd : b = d := by
              injection hdt with hdt1 _
            rw [hbd]; exact hd
          have ha : isSpaceJS a = true := by
            by_cases ha' : isSpaceJS a = true
            · exact ha'
            · rw [if_neg ha'] at h1
              exact absurd h1 ha'
          exact hab (by simp [ha, hb])

theorem collapseWs_id (l : List Char) (hch : l.Chain' NoAdjWs)
    (hsp : ∀ c ∈ l, isSpaceJS c = true → c = ' ') : collapseWs l = l := by
  induction l with
  | nil => rfl
  | cons a t ih =>
    cases t with
    | nil =>
      by_cases ha : isSpaceJS a = true
      · have : a = ' ' := hsp a (List.mem_singleton_self a) ha
        simp [collapseWs, ha, this]
      · simp [collapseWs, ha]
    | cons b rest =>
      have hna : NoAdjWs a b := (List.chain'_cons.mp hch).1
      have hab : (isSpaceJS a && isSpaceJS b) = false := by
        cases hsa : isSpaceJS a with
        | false => simp
        | true =>
          cases hsb : isSpaceJS b with
          | false => simp
          | true => exact absurd ⟨hsa, hsb⟩ hna
      have ihh := ih (List.chain'_cons.mp hch).2
        (fun c hc hcsp => hsp c (List.mem_cons_of_mem a hc) hcsp)
      simp only [collapseWs, hab, Bool.false_eq_true, if_false, ihh]
      by_cases ha : isSpaceJS a = true
      · rw [if_pos ha, hsp a (List.mem_cons_self a _) ha]
      · rw [if_neg ha]

theorem dropWhile_head_false {p : Char → Bool} :
    ∀ (l : List Char) (c : Char), (l.dropWhile p).head? = some c →
      p c = false := by
  intro l
  induction l with
  | nil => intro c h; simp at h
  | cons a t ih =>
    intro c h
    by_cases ha : p a = true
    · exact ih c (by simpa [List.dropWhile_cons, ha] using h)
    · have ha' : p a = false := by simpa using ha
      simp only [List.dropWhile_cons, ha', Bool.false_eq_true, if_false,
        List.head?_cons, Option.some.injEq] at h
      rw [← h]
      exact ha'

theorem dropWhile_eq_self_of_head {p : Char → Bool} (l : List Char)
    (h : ∀ c, l.head? = some c → p c = false) : l.dropWhile p = l := by
  cases l with
  | nil => rfl
  | cons a t => simp [List.dropWhile_cons, h a rfl]

theorem mem_dropWhile {p : Char → Bool} {c : Char} :
    ∀ l : List Char, c ∈ l.dropWhile p → c ∈ l := by
  intro l
  induction l with
  | nil => intro h; simp at h
  | cons a t ih =>
    intro h
    by_cases ha : p a = true
    · exact List.mem_cons_of_mem a (ih (by simpa [List.dropWhile_cons, ha]
        using h))
    · have ha' : p a = false := by simpa using ha
      simpa [List.dropWhile_cons, ha'] using h

theorem chain'_dropWhile {R : Char → Char → Prop} {p : Char → Bool} :
    ∀ l : List Char, l.Chain' R → (l.dropWhile p).Chain' R := by
  intro l
  induction l with
  | nil => intro _; simp
  | cons a t ih =>
    intro h
    by_cases ha : p a = true
    · simpa [List.dropWhile_cons, ha] using ih h.tail
    · have ha' : p a = false := by simpa using ha
      simpa [List.dropWhile_cons, ha'] using h

theorem chain'_reverse_noadj {l : List Char} (h : l.Chain' NoAdjWs) :
    l.reverse.Chain' NoAdjWs := by
  rw [List.chain'_reverse]
  exact h.imp (fun a b hab => fun hc => hab ⟨hc.2, hc.1⟩)

theorem mem_trimWs {c : Char} {l : List Char} (h : c ∈ trimWs l) : c ∈ l := by
  unfold trimWs at h
  rw [List.mem_reverse] at h
  have h1 := mem_dropWhile _ h
  rw [List.mem_reverse] at h1
  exact mem_dropWhile _ h1

theorem chain'_trimWs {l : List Char} (h : l.Chain' NoAdjWs) :
    (trimWs l).Chain' NoAdjWs :=
  chain'_reverse_noadj (chain'_dropWhile _ (chain'_reverse_noadj
    (chain'_dropWhile _ h)))

theorem trimWs_idem (l : List Char) : trimWs (trimWs l) = trimWs l := by
  unfold trimWs
  set u := l.dropWhile isSpaceJS with hu
  set y := (u.reverse.dropWhile isSpaceJS).reverse with hy
  have hyrev : y.reverse = u.reverse.dropWhile isSpaceJS := by
    rw [hy, List.reverse_reverse]
  have hstep1 : y.dropWhile isSpaceJS = y := by
    apply dropWhile_eq_self_of_head
    intro c hc
    rw [hy, List.head?_reverse] at hc
    obtain ⟨t, ht⟩ : ∃ t, t ++ u.reverse.dropWhile isSpaceJS = u.reverse :=
      ⟨u.reverse.takeWhile isSpaceJS,
        List.takeWhile_append_dropWhile isSpaceJS u.reverse⟩
    have hne : u.reverse.dropWhile isSpaceJS ≠ [] := by
      intro hnil
      rw [hnil] at hc
      simp at hc
    have hlast : (u.reverse.dropWhile isSpaceJS).getLast? =
        u.reverse.getLast? := by
      conv_rhs => rw [← ht]
      rw [List.getLast?_append]
      rcases hgl : (u.reverse.dropWhile isSpaceJS).getLast? with _ | d
      · exact absurd (List.getLast?_eq_none_iff.mp hgl) hne
      · rfl
    rw [hlast, List.getLast?_reverse] at hc
    exact dropWhile_head_false l c hc
  have hstep2 : y.reverse.dropWhile isSpaceJS = y.reverse := by
    apply dropWhile_eq_self_of_head
    intro c hc
    rw [hyrev] at hc
    rcases hh : (u.reverse.dropWhile isSpaceJS).head? with _ | d
    · rw [hh] at hc; exact absurd hc (by simp)
    · rw [hh] at hc
      have hd := dropWhile_head_false u.reverse d hh
      cases hc
      exact hd
  rw [hstep1, hstep2, List.reverse_reverse]

theorem map_id_of_fixed {f : Char → Char} :
    ∀ l : List Char, (∀ c ∈ l, f c = c) → l.map f = l := by
  intro l
  induction l with
  | nil => intro _; rfl
  | cons a t ih =>
    intro h
    simp only [List.map_cons, h a (List.mem_cons_self a t),
      ih (fun c hc => h c (List.mem_cons_of_mem a hc))]

theorem fingerprint_normal_fixed (d : List Char) :
    generateFingerprint (String.mk (trimWs (collapseWs
      ((d.map Char.toLower).filter
        (fun c => isWordCharJS c || isSpaceJS c))))) =
    String.mk (trimWs (collapseWs
      ((d.map Char.toLower).filter
        (fun c => isWordCharJS c || isSpaceJS c)))) := by
  set w := (d.map Char.toLower).filter
    (fun c => isWordCharJS c || isSpaceJS c) with hw
  set y := trimWs (collapseWs w) with hy
  have hchar : ∀ c ∈ y, c = ' ' ∨
      (isWordCharJS c = true ∧ Char.toLower c = c ∧ isSpaceJS c = false) := by
    intro c hc
    have hcz := mem_trimWs hc
    rcases mem_collapseWs w hcz with h | ⟨hcw, hcsp⟩
    · exact Or.inl h
    · right
      have hkeep : (isWordCharJS c || isSpaceJS c) = true := by
        rw [hw] at hcw
        exact (List.mem_filter.mp hcw).2
      have hcmap : c ∈ d.map Char.toLower := by
        rw [hw] at hcw
        exact (List.mem_filter.mp hcw).1
      obtain ⟨c0, _, hc0⟩ := List.mem_map.mp hcmap
      have hlow : Char.toLower c = c := by
        rw [← hc0]
        exact toLower_idem c0
      have hword : isWordCharJS c = true := by
        rcases Bool.or_eq_true_iff.mp hkeep with h | h
        · exact h
        · rw [h] at hcsp; cases hcsp
      exact ⟨hword, hlow, hcsp⟩
  have hchain : y.Chain' NoAdjWs := chain'_trimWs (chain'_collapseWs w)
  have hspY : ∀ c ∈ y, isSpaceJS c = true → c = ' ' := by
    intro c hc hcsp
    rcases hchar c hc with h | ⟨_, _, hf⟩
    · exact h
    · rw [hcsp] at hf; cases hf
  have hmap : y.map Char.toLower = y := by
    apply map_id_of_fixed
    intro c hc
    rcases hchar c hc with h | ⟨_, hlow, _⟩
    · rw [h]; decide
    · exact hlow
  have hfilt : y.filter (fun c => isWordCharJS c || isSpaceJS c) = y := by
    apply List.filter_eq_self.mpr
    intro c hc
    rcases hchar c hc with h | ⟨hword, _, _⟩
    · rw [h]; decide
    · simp [hword]
  have hcol : collapseWs y = y := collapseWs_id y hchain hspY
  have htrim : trimWs y = y := by
    rw [hy]
    exact trimWs_idem (collapseWs w)
  by_cases hy0 : String.mk y = ""
  · rw [generateFingerprint, if_pos hy0]
    exact hy0.symm
  · rw [generateFingerprint, if_neg hy0]
    have hdata : (String.mk y).data = y := rfl
    rw [hdata, hmap, hfilt, hcol, htrim]

/-- Claim C9: the fingerprint normalization (lowercase, strip all characters
outside `\w` and `\s`, collapse whitespace runs to one space, trim) is a
projection: applying it twice gives the same result as applying it once, for
every input string. -/
theorem generateFingerprint_idem (x : String) :
    generateFingerprint (generateFingerprint x) = generateFingerprint x := by
  by_cases hx : x = ""
  · subst hx
    rfl
  · have h1 : generateFingerprint x = String.mk (trimWs (collapseWs
        ((x.data.map Char.toLower).filter
          (fun c => isWordCharJS c || isSpaceJS c)))) := by
      rw [generateFingerprint, if_neg hx]
    rw [h1]
    exact fingerprint_normal_fixed x.data

end ChitChat
